import Mathlib

/-!
Shallow embedding of the case-variation engine in `src/app/email-case.jsx`.

Strings are modelled as `List Char`; JavaScript `BigInt` values are
modelled as `Nat` (they are non-negative everywhere in this program);
JavaScript `number` values that flow through the quantity checks are
modelled by `JSNum` below (the operations the program applies to them —
`Number.isFinite`, `<= 0`, `Math.min`, `BigInt(·)`, `Number.isInteger` —
are exact on IEEE doubles, so an exact rational carrier is faithful).
The stream of values produced by `Math.random()` is modelled by an
explicit list of the already-floored draws
`Math.floor(Math.random() * Number.MAX_SAFE_INTEGER)`, each a natural
number (at most `2^53 - 2`).  JavaScript's per-character
`toUpperCase`/`toLowerCase` return strings and may return more than one
character (the U+00DF special casing maps `'\u00df'` to `"SS"`), so the
renderer is modelled on an array of string slots exactly as
`split("")`/`join("")` produce it; the per-character maps are embedded
exactly on Basic Latin and on U+00DF, and treat the remaining
characters as case-inert (theorems whose truth depends on case
behaviour restrict themselves to the exact fragment through their
hypotheses).
-/

/-- JavaScript number as observed by this program: `NaN`, the two
infinities, or an exact finite value. -/
inductive JSNum where
  | nan : JSNum
  | posInf : JSNum
  | negInf : JSNum
  | num : Rat → JSNum
deriving DecidableEq

/-- Embeds `Number.isFinite(n)`. -/
def jsIsFinite : JSNum → Bool
  | .num _ => true
  | _ => false

/-- Embeds the JavaScript comparison `n <= 0` (false on `NaN`). -/
def jsLeZero : JSNum → Bool
  | .num q => decide (q ≤ 0)
  | .negInf => true
  | _ => false

/-- Embeds `Math.min(a, b)` (propagates `NaN`, handles infinities). -/
def jsMin : JSNum → JSNum → JSNum
  | .nan, _ => .nan
  | _, .nan => .nan
  | .negInf, _ => .negInf
  | _, .negInf => .negInf
  | .posInf, b => b
  | a, .posInf => a
  | .num x, .num y => if x < y then .num x else .num y

/-- Embeds `BigInt(n)` on a number: defined exactly when the value is a
finite integer, otherwise JavaScript throws a `RangeError` (modelled by
`none`). -/
def bigIntOfJS : JSNum → Option Int
  | .num q => if q.den = 1 then some q.num else none
  | _ => none

/-- Embeds the letter test `(ch >= "A" && ch <= "Z") || (ch >= "a" && ch <= "z")`
from `letterPositions` (single-character JavaScript string comparison is
code-point comparison). -/
def isAsciiLetter (c : Char) : Bool :=
  (decide ('A' ≤ c) && decide (c ≤ 'Z')) || (decide ('a' ≤ c) && decide (c ≤ 'z'))

/-- Embeds `letterPositions(str)`: the indices `i` of `str` holding an
ASCII letter, in increasing order. -/
def letterPositions (s : List Char) : List Nat :=
  (List.range s.length).filter (fun i => isAsciiLetter (s.getD i ' '))

/-- Character-level case toggle: the behaviour of the slot toggle of
`flipCases` on a single character whose case maps are single characters.
Used to describe the renderer on such slots; not itself the embedding of
the source (see `flipCases` below). -/
def toggleChar (c : Char) : Char :=
  if c = c.toUpper then c.toLower else c.toUpper

/-- Character-level loop step corresponding to `flipStep` on arrays all
of whose slots hold one single-character string. -/
def flipStepChar (positions : List Nat) (mask : Nat) (arr : List Char) (b : Nat) : List Char :=
  if Nat.testBit mask b then
    arr.set (positions.getD b 0) (toggleChar (arr.getD (positions.getD b 0) ' '))
  else arr

/-- Character-level renderer: equal to the embedded `flipCases` whenever
every active position holds a character with single-character case maps
(`flipCases_eq_char` below); the proofs about rendering go through it. -/
def flipCasesChar (base : List Char) (positions : List Nat) (mask : Nat) : List Char :=
  (List.range positions.length).foldl (flipStepChar positions mask) base

/-- Embeds JavaScript's per-character `toUpperCase()` mapping as a
character-to-string function: exact on Basic Latin and on U+00DF, whose
special casing maps `'\u00df'` to the two-character string `"SS"`;
other characters (for which JavaScript applies further Unicode
mappings) are modelled as case-inert, and every theorem that depends on
case behaviour confines itself to the exact fragment through its
hypotheses. -/
def jsToUpperChar (c : Char) : List Char :=
  if c = 'ß' then ['S', 'S'] else [c.toUpper]

/-- Embeds JavaScript's per-character `toLowerCase()` mapping on the
same fragment (no special casing arises there: `'\u00df'` lowercases to
itself). -/
def jsToLowerChar (c : Char) : List Char :=
  [c.toLower]

/-- Embeds `s.toUpperCase()` on a JavaScript string: each character is
mapped and the results are concatenated. -/
def jsToUpper (s : List Char) : List Char :=
  s.flatMap jsToUpperChar

/-- Embeds `s.toLowerCase()` on a JavaScript string. -/
def jsToLower (s : List Char) : List Char :=
  s.flatMap jsToLowerChar

/-- Embeds the toggle `ch === ch.toUpperCase() ? ch.toLowerCase() : ch.toUpperCase()`
from `flipCases`, where `ch` is the string held in one slot of the
split array (a slot may hold more than one character after a toggle,
because `toUpperCase()` can lengthen the string). -/
def toggleCase (s : List Char) : List Char :=
  if s = jsToUpper s then jsToLower s else jsToUpper s

/-- Embeds one iteration of the loop body of `flipCases`: when bit `b`
of `mask` is set (`(mask >> b) & 1n === 1n`), the slot at index
`positions[b]` of the split array is replaced by its case toggle. -/
def flipStep (positions : List Nat) (mask : Nat) (arr : List (List Char)) (b : Nat) :
    List (List Char) :=
  if Nat.testBit mask b then
    arr.set (positions.getD b 0) (toggleCase (arr.getD (positions.getD b 0) []))
  else arr

/-- Embeds `flipCases(base, positions, mask)`: `base.split("")` yields
the array of one-character strings, the loop runs `b` from `0` to
`positions.length - 1` toggling the slot `positions[b]` when bit `b` of
the mask is set, and `join("")` concatenates the final slots.  (In the
application, every entry of `positions` is a valid index into `base`.) -/
def flipCases (base : List Char) (positions : List Nat) (mask : Nat) : List Char :=
  ((List.range positions.length).foldl (flipStep positions mask)
    (base.map (fun c => [c]))).flatten

/-- Embeds one random draw of `sampleUniqueBigInt`:
`BigInt.asUintN(64, BigInt(raw)) % maxExclusive`, where `raw` is the
already-floored `Math.floor(Math.random() * Number.MAX_SAFE_INTEGER)`
(so `raw ≤ 2^53 - 2`). -/
def samplePick (raw maxExclusive : Nat) : Nat :=
  (raw % 2 ^ 64) % maxExclusive

/-- Embeds `set.add(pick)` on a JavaScript `Set` kept as its
insertion-ordered element list. -/
def setInsert (s : List Nat) (x : Nat) : List Nat :=
  if x ∈ s then s else s ++ [x]

/-- Embeds the `while (set.size < k)` loop of `sampleUniqueBigInt`,
consuming the explicit stream of random draws; `none` means the stream
was exhausted with the loop still running. -/
def sampleGo (maxExclusive k : Nat) : List Nat → List Nat → Option (List Nat)
  | [], acc => if k ≤ acc.length then some acc else none
  | r :: rs, acc =>
    if k ≤ acc.length then some acc
    else sampleGo maxExclusive k rs (setInsert acc (samplePick r maxExclusive))

/-- Embeds `sampleUniqueBigInt(maxExclusive, k)` (the returned
`Array.from(set)` is the insertion-ordered list). -/
def sampleUniqueBigInt (rands : List Nat) (maxExclusive k : Nat) : Option (List Nat) :=
  sampleGo maxExclusive k rands []

/-- Embeds `totalPossible`: `1n << BigInt(lettersCount)`. -/
def totalPossible (lettersCount : Nat) : Nat :=
  1 <<< lettersCount

/-- Embeds the per-token filter of `customPositions`: the token is kept
when `Number.isInteger(n) && n >= 0 && n < email.length`. -/
def jsIndexValue (len : Nat) : JSNum → Option Nat
  | .num q => if q.den = 1 ∧ 0 ≤ q.num ∧ q.num < (len : Int) then some q.num.toNat else none
  | _ => none

/-- Embeds `customPositions`, starting from the numeric tokens obtained
by the whitespace/comma split and `Number(·)` conversion of the raw
index string: the filtered tokens if the toggle is on and any survive,
otherwise the fallback to `allLetterPositions`. -/
def customPositions (useCustom : Bool) (tokens : List JSNum) (len : Nat)
    (allPositions : List Nat) : List Nat :=
  if useCustom then
    if (tokens.filterMap (jsIndexValue len)).isEmpty then allPositions
    else tokens.filterMap (jsIndexValue len)
  else allPositions

/-- Active position set of a run: `customPositions` applied to the
default extraction, as the component wires it. -/
def activePositions (useCustom : Bool) (tokens : List JSNum) (email : List Char) : List Nat :=
  customPositions useCustom tokens email.length (letterPositions email)

/-- Embeds the characters the regex metacharacter `.` matches: anything
except a line terminator. -/
def isRegexAny (c : Char) : Bool :=
  !(c = '\n' || c = '\r' || c = '\u2028' || c = '\u2029')

/-- Embeds `EMAIL_REGEX.test(email)` for `/.+@.+\..+/`: an unanchored
search succeeds exactly when there are indices `i < j` with `email[i] = '@'`,
`email[j] = '.'`, at least one non-terminator character strictly between
them, at least one non-terminator character immediately before `i` and
immediately after `j` (a longer `.+` run can always be shrunk to one
character, so one suffices). -/
def emailMatches (s : List Char) : Bool :=
  (List.range s.length).any (fun i =>
    (List.range s.length).any (fun j =>
      decide (1 ≤ i) && (s.getD i ' ' == '@') &&
      decide (i + 2 ≤ j) && (s.getD j ' ' == '.') &&
      decide (j + 2 ≤ s.length) &&
      isRegexAny (s.getD (i - 1) ' ') && isRegexAny (s.getD (j + 1) ' ') &&
      (List.range s.length).all (fun t =>
        !(decide (i < t) && decide (t < j)) || isRegexAny (s.getD t ' '))))

/-- Embeds the mask-production part of `generate` (lines 92–101): either
deterministic enumeration `0, …, upto-1` with
`upto = Number(max < want ? max : want)` when `max <= 100000n`, or
rejection sampling. -/
def generatePicks (max want : Nat) (rands : List Nat) : Option (List Nat) :=
  if max ≤ 100000 then some (List.range (Nat.min max want))
  else sampleUniqueBigInt rands max want

/-- Outcome of one call to `generate`.  Only `ok` reaches
`setVariations`; every other outcome leaves the previously rendered
variation list untouched (`emailError` and `quantityError` are the two
`alert`-and-return validation exits, `rangeError` is the uncaught
`RangeError` thrown by `BigInt(Math.min(n, 5000))` on a non-integer,
and `outOfRandomness` means the sampling loop was still running when
the supplied random stream ran out). -/
inductive GenResult where
  | emailError : GenResult
  | quantityError : GenResult
  | rangeError : GenResult
  | outOfRandomness : GenResult
  | ok : List (List Char) → GenResult
deriving DecidableEq

/-- Embeds `generate()`: the e-mail gate, the quantity validation
`!Number.isFinite(n) || n <= 0`, the clamp `BigInt(Math.min(n, 5000))`,
mask production, and rendering of each mask with `flipCases`. -/
def generate (email : List Char) (qty : JSNum) (useCustom : Bool)
    (tokens : List JSNum) (rands : List Nat) : GenResult :=
  if !(emailMatches email) then .emailError
  else if !(jsIsFinite qty) || jsLeZero qty then .quantityError
  else
    match bigIntOfJS (jsMin qty (.num 5000)) with
    | none => .rangeError
    | some want =>
      match generatePicks (totalPossible (activePositions useCustom tokens email).length)
          want.toNat rands with
      | none => .outOfRandomness
      | some picks =>
        .ok (picks.map (fun m => flipCases email (activePositions useCustom tokens email) m))

example : emailMatches "a@b.c".toList = true := by decide
example : emailMatches "abc".toList = false := by decide
example : emailMatches "x.y@z".toList = false := by decide
example : emailMatches "a@.c".toList = false := by decide
example : emailMatches "a@b.".toList = false := by decide
example : letterPositions "a@b.c".toList = [0, 2, 4] := by decide
example : totalPossible 3 = 8 := by decide
example : flipCases "ab".toList [0, 1] 3 = "AB".toList := by decide
example : generate "a@b.c".toList (.num 2) false [] [] =
    .ok ["a@b.c".toList, "A@b.c".toList] := by decide
example : generate "a@b.c".toList (.num 4) true [.num 0, .num 0] [] =
    .ok ["a@b.c".toList, "A@b.c".toList, "A@b.c".toList, "a@b.c".toList] := by decide
example : generate "abc".toList (.num 2) false [] [] = .emailError := by decide
example : generate "a@b.c".toList (.num (mkRat 10001 2)) false [] [] =
    .ok ((List.range 8).map (fun m => flipCases "a@b.c".toList [0, 2, 4] m)) := by decide
example : generate "a@b.c".toList (.num (mkRat 5 2)) false [] [] = .rangeError := by decide
example : generate "a@b.c".toList .nan false [] [] = .quantityError := by decide
example : generate "a@b.c".toList (.num 0) false [] [] = .quantityError := by decide

lemma flipStepChar_length (pos : List Nat) (m : Nat) (arr : List Char) (b : Nat) :
    (flipStepChar pos m arr b).length = arr.length := by
  unfold flipStepChar
  split <;> simp

lemma foldl_flipStepChar_length (pos : List Nat) (m : Nat) (bs : List Nat) (arr : List Char) :
    (bs.foldl (flipStepChar pos m) arr).length = arr.length := by
  induction bs generalizing arr with
  | nil => rfl
  | cons b bs ih => rw [List.foldl_cons, ih, flipStepChar_length]

lemma flipStepChar_getD_ne (pos : List Nat) (m : Nat) (arr : List Char) (b j : Nat)
    (h : pos.getD b 0 ≠ j) :
    (flipStepChar pos m arr b).getD j ' ' = arr.getD j ' ' := by
  unfold flipStepChar
  split
  · rw [List.getD_eq_getElem?_getD, List.getElem?_set_ne h, ← List.getD_eq_getElem?_getD]
  · rfl

lemma foldl_flipStepChar_getD_ne (pos : List Nat) (m : Nat) (bs : List Nat) :
    ∀ (arr : List Char) (j : Nat), (∀ b ∈ bs, pos.getD b 0 ≠ j) →
    (bs.foldl (flipStepChar pos m) arr).getD j ' ' = arr.getD j ' ' := by
  induction bs with
  | nil => intro arr j _; rfl
  | cons b bs ih =>
    intro arr j hne
    rw [List.foldl_cons, ih _ j (fun b' hb' => hne b' (List.mem_cons_of_mem _ hb')),
      flipStepChar_getD_ne _ _ _ _ _ (hne b (List.mem_cons_self b bs))]

lemma flipStepChar_getD_self (pos : List Nat) (m : Nat) (arr : List Char) (b : Nat)
    (hlt : pos.getD b 0 < arr.length) :
    (flipStepChar pos m arr b).getD (pos.getD b 0) ' ' =
      (if m.testBit b then toggleChar (arr.getD (pos.getD b 0) ' ') else arr.getD (pos.getD b 0) ' ') := by
  unfold flipStepChar
  split
  · rw [List.getD_eq_getElem?_getD, List.getElem?_set_self hlt]
    rfl
  · rfl

lemma foldl_flipStepChar_getD_hit (pos : List Nat) (m : Nat) (bs : List Nat) :
    ∀ (arr : List Char) (b : Nat), b ∈ bs → bs.Nodup →
    (∀ b' ∈ bs, b' ≠ b → pos.getD b' 0 ≠ pos.getD b 0) →
    pos.getD b 0 < arr.length →
    (bs.foldl (flipStepChar pos m) arr).getD (pos.getD b 0) ' ' =
      (if m.testBit b then toggleChar (arr.getD (pos.getD b 0) ' ') else arr.getD (pos.getD b 0) ' ') := by
  induction bs with
  | nil => intro arr b hmem; cases hmem
  | cons b0 bs ih =>
    intro arr b hmem hnd hinj hlt
    rw [List.foldl_cons]
    rcases List.mem_cons.1 hmem with rfl | hmem'
    · have hb0nin : b ∉ bs := (List.nodup_cons.1 hnd).1
      rw [foldl_flipStepChar_getD_ne pos m bs _ _ (fun b' hb' => by
        refine hinj b' (List.mem_cons_of_mem _ hb') ?_
        rintro rfl
        exact hb0nin hb')]
      exact flipStepChar_getD_self pos m arr b hlt
    · have hb0ne : b0 ≠ b := by
        rintro rfl
        exact (List.nodup_cons.1 hnd).1 hmem'
      have harr' : (flipStepChar pos m arr b0).getD (pos.getD b 0) ' ' = arr.getD (pos.getD b 0) ' ' :=
        flipStepChar_getD_ne pos m arr b0 _ (hinj b0 (List.mem_cons_self b0 bs) hb0ne)
      rw [ih _ b hmem' (List.nodup_cons.1 hnd).2
        (fun b' hb' hne => hinj b' (List.mem_cons_of_mem _ hb') hne)
        (by rw [flipStepChar_length]; exact hlt), harr']

lemma flipCasesChar_length (base : List Char) (pos : List Nat) (m : Nat) :
    (flipCasesChar base pos m).length = base.length :=
  foldl_flipStepChar_length pos m _ base

lemma flipCasesChar_getD_of_not_mem (base : List Char) (pos : List Nat) (m : Nat) (j : Nat)
    (hj : j ∉ pos) :
    (flipCasesChar base pos m).getD j ' ' = base.getD j ' ' := by
  refine foldl_flipStepChar_getD_ne pos m _ base j (fun b hb => ?_)
  intro hEq
  refine hj ?_
  rw [← hEq, List.getD_eq_getElem?_getD,
    List.getElem?_eq_getElem (List.mem_range.1 hb)]
  exact List.getElem_mem _

lemma flipCasesChar_getD_at (base : List Char) (pos : List Nat) (m : Nat) (b : Nat)
    (hnd : pos.Nodup) (hb : b < pos.length) (hlt : pos.getD b 0 < base.length) :
    (flipCasesChar base pos m).getD (pos.getD b 0) ' ' =
      (if m.testBit b then toggleChar (base.getD (pos.getD b 0) ' ') else base.getD (pos.getD b 0) ' ') := by
  refine foldl_flipStepChar_getD_hit pos m _ base b (List.mem_range.2 hb) (List.nodup_range _)
    (fun b' hb' hne => ?_) hlt
  have hb' : b' < pos.length := List.mem_range.1 hb'
  rw [List.getD_eq_getElem?_getD, List.getD_eq_getElem?_getD,
    List.getElem?_eq_getElem hb', List.getElem?_eq_getElem hb]
  simp only [Option.getD_some]
  intro hEq
  exact hne ((hnd.getElem_inj_iff).1 hEq)

lemma char_toNat_ofNat (m : Nat) (h : m.isValidChar) : (Char.ofNat m).toNat = m := by
  rw [Char.ofNat, dif_pos h]
  rfl

lemma char_ne_of_toNat_ne {a b : Char} (h : a.toNat ≠ b.toNat) : a ≠ b :=
  fun he => h (he ▸ rfl)

lemma char_le_iff_toNat {a b : Char} : a ≤ b ↔ a.toNat ≤ b.toNat := Iff.rfl

lemma isAsciiLetter_toNat {c : Char} (h : isAsciiLetter c = true) :
    (65 ≤ c.toNat ∧ c.toNat ≤ 90) ∨ (97 ≤ c.toNat ∧ c.toNat ≤ 122) := by
  unfold isAsciiLetter at h
  simp only [Bool.or_eq_true, Bool.and_eq_true, decide_eq_true_eq] at h
  rcases h with ⟨h1, h2⟩ | ⟨h1, h2⟩
  · exact Or.inl ⟨char_le_iff_toNat.1 h1, char_le_iff_toNat.1 h2⟩
  · exact Or.inr ⟨char_le_iff_toNat.1 h1, char_le_iff_toNat.1 h2⟩

lemma toUpper_toNat_of_lower {c : Char} (h1 : 97 ≤ c.toNat) (h2 : c.toNat ≤ 122) :
    c.toUpper.toNat = c.toNat - 32 := by
  have he : c.toUpper = Char.ofNat (c.toNat - 32) := by
    unfold Char.toUpper
    exact if_pos ⟨h1, h2⟩
  rw [he]
  exact char_toNat_ofNat _ (Or.inl (by omega))

lemma toUpper_eq_self_of_upper {c : Char} (h2 : c.toNat ≤ 90) : c.toUpper = c := by
  unfold Char.toUpper
  exact if_neg (by omega)

lemma toLower_toNat_of_upper {c : Char} (h1 : 65 ≤ c.toNat) (h2 : c.toNat ≤ 90) :
    c.toLower.toNat = c.toNat + 32 := by
  have he : c.toLower = Char.ofNat (c.toNat + 32) := by
    unfold Char.toLower
    exact if_pos ⟨h1, h2⟩
  rw [he]
  exact char_toNat_ofNat _ (Or.inl (by omega))

/-- Toggling the case of an ASCII letter always produces a different
character. -/
lemma toggleChar_ne_of_letter {c : Char} (h : isAsciiLetter c = true) : toggleChar c ≠ c := by
  unfold toggleChar
  rcases isAsciiLetter_toNat h with ⟨h1, h2⟩ | ⟨h1, h2⟩
  · rw [if_pos (toUpper_eq_self_of_upper h2).symm]
    refine char_ne_of_toNat_ne ?_
    rw [toLower_toNat_of_upper h1 h2]
    omega
  · have hne : c.toUpper.toNat ≠ c.toNat := by
      rw [toUpper_toNat_of_lower h1 h2]
      omega
    rw [if_neg (fun hcc : c = c.toUpper => hne (by rw [← hcc]))]
    exact char_ne_of_toNat_ne hne

/-- Distinct masks below `2 ^ positions.length` render to distinct
variations when the positions are pairwise distinct in-range letter
indices. -/
lemma flipCasesChar_inj (base : List Char) (pos : List Nat)
    (hnd : pos.Nodup)
    (hpos : ∀ i ∈ pos, i < base.length ∧ isAsciiLetter (base.getD i ' ') = true)
    {m1 m2 : Nat} (hm1 : m1 < 2 ^ pos.length) (hm2 : m2 < 2 ^ pos.length)
    (heq : flipCasesChar base pos m1 = flipCasesChar base pos m2) : m1 = m2 := by
  by_contra hne
  obtain ⟨b, hbit⟩ : ∃ b, m1.testBit b ≠ m2.testBit b := by
    by_contra hforall
    push_neg at hforall
    exact hne (Nat.eq_of_testBit_eq hforall)
  have hblt : b < pos.length := by
    by_contra hge
    push_neg at hge
    have e1 : m1.testBit b = false :=
      Nat.testBit_lt_two_pow (lt_of_lt_of_le hm1 (Nat.pow_le_pow_right (by omega) hge))
    have e2 : m2.testBit b = false :=
      Nat.testBit_lt_two_pow (lt_of_lt_of_le hm2 (Nat.pow_le_pow_right (by omega) hge))
    rw [e1, e2] at hbit
    exact hbit rfl
  have hmem : pos.getD b 0 ∈ pos := by
    rw [List.getD_eq_getElem?_getD, List.getElem?_eq_getElem hblt]
    exact List.getElem_mem _
  obtain ⟨hlt, hletter⟩ := hpos _ hmem
  have g1 := flipCasesChar_getD_at base pos m1 b hnd hblt hlt
  have g2 := flipCasesChar_getD_at base pos m2 b hnd hblt hlt
  rw [heq] at g1
  have gg := g1.symm.trans g2
  cases hb1 : m1.testBit b <;> cases hb2 : m2.testBit b <;> rw [hb1, hb2] at gg hbit
  · exact hbit rfl
  · exact toggleChar_ne_of_letter hletter gg.symm
  · exact toggleChar_ne_of_letter hletter gg
  · exact hbit rfl

lemma toUpper_eq_self_of_not_lower {c : Char} (h : ¬(97 ≤ c.toNat ∧ c.toNat ≤ 122)) :
    c.toUpper = c := by
  unfold Char.toUpper
  exact if_neg h

lemma toLower_eq_self_of_not_upper {c : Char} (h : ¬(65 ≤ c.toNat ∧ c.toNat ≤ 90)) :
    c.toLower = c := by
  unfold Char.toLower
  exact if_neg h

/-- Toggling keeps a Basic Latin character Basic Latin. -/
lemma toggleChar_ascii {c : Char} (h : c.toNat < 128) : (toggleChar c).toNat < 128 := by
  unfold toggleChar
  split
  · by_cases hu : 65 ≤ c.toNat ∧ c.toNat ≤ 90
    · rw [toLower_toNat_of_upper hu.1 hu.2]
      omega
    · rw [toLower_eq_self_of_not_upper hu]
      exact h
  · by_cases hl : 97 ≤ c.toNat ∧ c.toNat ≤ 122
    · rw [toUpper_toNat_of_lower hl.1 hl.2]
      omega
    · rw [toUpper_eq_self_of_not_lower hl]
      exact h

lemma ascii_ne_eszett {c : Char} (h : c.toNat < 128) : c ≠ 'ß' := by
  intro hEq
  subst hEq
  exact absurd h (by decide)

/-- On a character whose uppercase mapping is single-character — every
character except `'ß'` in the modelled fragment — the slot toggle is the
character-level toggle. -/
lemma toggleCase_singleton {c : Char} (h : c ≠ 'ß') : toggleCase [c] = [toggleChar c] := by
  unfold toggleCase toggleChar jsToUpper jsToLower
  have hu : [c].flatMap jsToUpperChar = [c.toUpper] := by
    rw [List.flatMap_singleton]
    unfold jsToUpperChar
    rw [if_neg h]
  have hl : [c].flatMap jsToLowerChar = [c.toLower] := by
    rw [List.flatMap_singleton]
    rfl
  rw [hu, hl]
  by_cases hc : c = c.toUpper
  · rw [if_pos (by rw [← hc]), if_pos hc]
  · rw [if_neg (fun he => hc (List.cons.inj he).1), if_neg hc]

lemma map_singleton_getD (l : List Char) (i : Nat) (h : i < l.length) :
    (l.map (fun c => [c])).getD i [] = [l.getD i ' '] := by
  rw [List.getD_eq_getElem?_getD, List.getElem?_map, List.getElem?_eq_getElem h,
    List.getD_eq_getElem?_getD, List.getElem?_eq_getElem h]
  rfl

/-- On arrays whose slots are the singletons of a character array all of
whose active characters are Basic Latin, the slot-level loop of
`flipCases` is the character-level loop. -/
lemma flipAux_eq_char (pos : List Nat) (m : Nat) (bs : List Nat) :
    ∀ (carr : List Char), (∀ b ∈ bs, b < pos.length) →
    (∀ i ∈ pos, i < carr.length) →
    (∀ i ∈ pos, (carr.getD i ' ').toNat < 128) →
    bs.foldl (flipStep pos m) (carr.map (fun c => [c])) =
      (bs.foldl (flipStepChar pos m) carr).map (fun c => [c]) := by
  induction bs with
  | nil => intro carr _ _ _; rfl
  | cons b0 bs ih =>
    intro carr hb hr ha
    have hb0 : b0 < pos.length := hb b0 (List.mem_cons_self b0 bs)
    have hmem : pos.getD b0 0 ∈ pos := by
      rw [List.getD_eq_getElem?_getD, List.getElem?_eq_getElem hb0]
      exact List.getElem_mem _
    have hlt : pos.getD b0 0 < carr.length := hr _ hmem
    have hstep : flipStep pos m (carr.map (fun c => [c])) b0 =
        (flipStepChar pos m carr b0).map (fun c => [c]) := by
      unfold flipStep flipStepChar
      split
      · rw [map_singleton_getD carr _ hlt,
          toggleCase_singleton (ascii_ne_eszett (ha _ hmem)), List.map_set]
      · rfl
    rw [List.foldl_cons, List.foldl_cons, hstep]
    refine ih (flipStepChar pos m carr b0) (fun b hbmem => hb b (List.mem_cons_of_mem _ hbmem))
      (fun i hi => by rw [flipStepChar_length]; exact hr i hi) ?_
    intro i hi
    by_cases hEq : pos.getD b0 0 = i
    · subst hEq
      rw [flipStepChar_getD_self pos m carr b0 hlt]
      split
      · exact toggleChar_ascii (ha _ hmem)
      · exact ha _ hmem
    · rw [flipStepChar_getD_ne pos m carr b0 i hEq]
      exact ha i hi

/-- Whenever every active position holds a Basic Latin character of the
source, the embedded renderer coincides with the character-level
renderer (slots never leave the single-character regime). -/
lemma flipCases_eq_char (base : List Char) (pos : List Nat) (m : Nat)
    (hrange : ∀ i ∈ pos, i < base.length)
    (hascii : ∀ i ∈ pos, (base.getD i ' ').toNat < 128) :
    flipCases base pos m = flipCasesChar base pos m := by
  unfold flipCases flipCasesChar
  rw [flipAux_eq_char pos m (List.range pos.length) base
    (fun b hb => List.mem_range.1 hb) hrange hascii]
  exact List.flatMap_singleton' _

lemma letterPositions_lt (s : List Char) : ∀ i ∈ letterPositions s, i < s.length := by
  intro i hi
  unfold letterPositions at hi
  exact List.mem_range.1 (List.mem_filter.1 hi).1

lemma jsIndexValue_lt {len : Nat} {t : JSNum} {i : Nat} (h : jsIndexValue len t = some i) :
    i < len := by
  cases t with
  | num q =>
    simp only [jsIndexValue] at h
    split at h <;> rename_i hc
    · injection h with hi
      omega
    · cases h
  | nan => exact Option.noConfusion h
  | posInf => exact Option.noConfusion h
  | negInf => exact Option.noConfusion h

lemma customPositions_lt (u : Bool) (tk : List JSNum) (len : Nat) (ap : List Nat)
    (hap : ∀ i ∈ ap, i < len) : ∀ i ∈ customPositions u tk len ap, i < len := by
  intro i hi
  unfold customPositions at hi
  split at hi
  · split at hi
    · exact hap i hi
    · obtain ⟨tok, _, htok⟩ := List.mem_filterMap.1 hi
      exact jsIndexValue_lt htok
  · exact hap i hi

/-- Every position the application feeds to the renderer is a valid
index into the source: the default extraction and the custom filter
both bound indices by the source length. -/
lemma activePositions_lt (u : Bool) (t : List JSNum) (email : List Char) :
    ∀ i ∈ activePositions u t email, i < email.length :=
  customPositions_lt u t email.length _ (letterPositions_lt email)

lemma setInsert_nodup {s : List Nat} {x : Nat} (h : s.Nodup) : (setInsert s x).Nodup := by
  unfold setInsert
  split <;> rename_i hx
  · exact h
  · rw [List.nodup_append]
    exact ⟨h, List.nodup_singleton x, by
      intro a ha hb
      rw [List.mem_singleton] at hb
      subst hb
      exact hx ha⟩

lemma setInsert_bound {s : List Nat} {x n : Nat} (hs : ∀ y ∈ s, y < n) (hx : x < n) :
    ∀ y ∈ setInsert s x, y < n := by
  unfold setInsert
  split
  · exact hs
  · intro y hy
    rcases List.mem_append.1 hy with h | h
    · exact hs y h
    · rw [List.mem_singleton] at h
      subst h
      exact hx

lemma setInsert_length_le (s : List Nat) (x : Nat) :
    (setInsert s x).length ≤ s.length + 1 := by
  unfold setInsert
  split <;> simp

lemma samplePick_lt (raw : Nat) {maxExclusive : Nat} (h : 0 < maxExclusive) :
    samplePick raw maxExclusive < maxExclusive :=
  Nat.mod_lt _ h

lemma sampleGo_spec {maxExclusive k : Nat} (hm : 0 < maxExclusive) (rands : List Nat) :
    ∀ acc res, acc.Nodup → (∀ y ∈ acc, y < maxExclusive) → acc.length ≤ k →
    sampleGo maxExclusive k rands acc = some res →
    res.Nodup ∧ (∀ y ∈ res, y < maxExclusive) ∧ res.length = k := by
  induction rands with
  | nil =>
    intro acc res h1 h2 h3 hs
    unfold sampleGo at hs
    split at hs
    · cases hs
      exact ⟨h1, h2, by omega⟩
    · cases hs
  | cons r rs ih =>
    intro acc res h1 h2 h3 hs
    unfold sampleGo at hs
    split at hs <;> rename_i hlen
    · cases hs
      exact ⟨h1, h2, by omega⟩
    · refine ih _ res (setInsert_nodup h1)
        (setInsert_bound h2 (samplePick_lt r hm)) ?_ hs
      have := setInsert_length_le acc (samplePick r maxExclusive)
      omega

lemma nodup_lt_two_length_le {l : List Nat} (hnd : l.Nodup) (hb : ∀ y ∈ l, y < 2) :
    l.length ≤ 2 := by
  match l with
  | [] => simp
  | [a] => simp
  | [a, b] => simp
  | a :: b :: c :: t =>
    exfalso
    simp only [List.nodup_cons, List.mem_cons, not_or] at hnd
    have ha := hb a (by simp)
    have hbb := hb b (by simp)
    have hc := hb c (by simp)
    have hab : a ≠ b := hnd.1.1
    have hac : a ≠ c := hnd.1.2.1
    have hbc : b ≠ c := hnd.2.1.1
    omega

/-- Destructor for a successful run of `generate`: the rendered list is
the image under `flipCases` of a mask list produced by `generatePicks`
for the run's active positions and space size. -/
lemma generate_ok_elim {email : List Char} {qty : JSNum} {u : Bool}
    {t : List JSNum} {rands : List Nat} {vs : List (List Char)}
    (h : generate email qty u t rands = .ok vs) :
    ∃ want : Int, ∃ picks : List Nat,
      bigIntOfJS (jsMin qty (.num 5000)) = some want ∧
      generatePicks (totalPossible (activePositions u t email).length) want.toNat rands
        = some picks ∧
      vs = picks.map (fun m => flipCases email (activePositions u t email) m) := by
  unfold generate at h
  split at h
  · cases h
  · split at h
    · cases h
    · split at h
      · cases h
      · rename_i want hb
        split at h
        · cases h
        · rename_i picks hp
          cases h
          exact ⟨want, picks, hb, hp, rfl⟩

/-- C1: for every active position set of length `n`, the computed space
size `totalPossible` (`1n << BigInt(n)`) equals `2 ^ n` exactly as an
unbounded natural number — in particular `n = 0` gives `1`, and the
equality is exact for every `n`, including `n ≥ 64`. -/
theorem totalPossible_eq_two_pow (n : Nat) : totalPossible n = 2 ^ n := by
  unfold totalPossible
  rw [Nat.shiftLeft_eq, Nat.one_mul]

/-- C9: on source `"ab"` the extracted active positions are `[0, 1]`, the
space size is `4`, and masks `0, 1, 2, 3` render to `"ab"`, `"Ab"`,
`"aB"`, `"AB"`: bit 0 of the mask drives position 0 and bit 1 drives
position 1. -/
theorem scenario_ab_masks :
    letterPositions "ab".toList = [0, 1] ∧
    totalPossible 2 = 4 ∧
    flipCases "ab".toList [0, 1] 0 = "ab".toList ∧
    flipCases "ab".toList [0, 1] 1 = "Ab".toList ∧
    flipCases "ab".toList [0, 1] 2 = "aB".toList ∧
    flipCases "ab".toList [0, 1] 3 = "AB".toList := by
  decide

/-- C10: when the source does not match `/.+@.+\..+/`, `generate`
returns at the e-mail gate before any mask generation or rendering, so
the previously produced variation list is left unchanged (only the `ok`
outcome reaches `setVariations`). -/
theorem generate_email_gate (email : List Char) (qty : JSNum) (u : Bool)
    (t : List JSNum) (rands : List Nat) (h : emailMatches email = false) :
    generate email qty u t rands = .emailError := by
  unfold generate
  rw [h]
  rfl

theorem generate_email_gate_witness :
    emailMatches "abc".toList = false ∧
      generate "abc".toList (.num 10) false [] [] = .emailError :=
  ⟨by decide, generate_email_gate _ _ _ _ _ (by decide)⟩

/-- C2 (defect witness): with `maxExclusive = 2` and `k = 3` — a request
for more unique masks than the space holds — the rejection loop of
`sampleUniqueBigInt` never exits, whatever random values are drawn: the
uniqueness set can hold at most the two residues `0` and `1`, so
`set.size < k` stays true forever.  The cap at `spaceSize` required by
the specification is absent from the code. -/
theorem sampleUniqueBigInt_exhaustion_no_exit (rands : List Nat) :
    sampleUniqueBigInt rands 2 3 = none := by
  unfold sampleUniqueBigInt
  have main : ∀ rs acc, acc.Nodup → (∀ y ∈ acc, y < 2) → sampleGo 2 3 rs acc = none := by
    intro rs
    induction rs with
    | nil =>
      intro acc h1 h2
      unfold sampleGo
      rw [if_neg (by have := nodup_lt_two_length_le h1 h2; omega)]
    | cons r rs ih =>
      intro acc h1 h2
      unfold sampleGo
      rw [if_neg (by have := nodup_lt_two_length_le h1 h2; omega)]
      exact ih _ (setInsert_nodup h1) (setInsert_bound h2 (samplePick_lt r (by omega)))
  exact main rands [] List.nodup_nil (by simp)

/-- C3 (defect witness): in sampling mode over a space of size `2^60`
(60 active positions), a single draw — `Math.random()` scaled to at most
`Number.MAX_SAFE_INTEGER - 1 = 2^53 - 2`, reduced through
`BigInt.asUintN(64, ·)` and then `% spaceSize` — always lands below
`2^53`, so values such as `2^60 - 1` can never be produced and the draw
is not uniform on `[0, spaceSize)`. -/
theorem samplePick_misses_high_masks (raw : Nat) (h : raw ≤ 2 ^ 53 - 2) :
    samplePick raw (2 ^ 60) < 2 ^ 53 ∧ samplePick raw (2 ^ 60) ≠ 2 ^ 60 - 1 := by
  unfold samplePick
  have e53 : (2 : Nat) ^ 53 = 9007199254740992 := by norm_num
  have e60 : (2 : Nat) ^ 60 = 1152921504606846976 := by norm_num
  have e64 : (2 : Nat) ^ 64 = 18446744073709551616 := by norm_num
  rw [Nat.mod_eq_of_lt (by omega), Nat.mod_eq_of_lt (by omega)]
  omega

theorem samplePick_misses_high_masks_witness :
    42 ≤ 2 ^ 53 - 2 ∧
      (samplePick 42 (2 ^ 60) < 2 ^ 53 ∧ samplePick 42 (2 ^ 60) ≠ 2 ^ 60 - 1) :=
  ⟨by norm_num, samplePick_misses_high_masks 42 (by norm_num)⟩

/-- C4: whenever the mask generator completes on the clamped request
`wantCount = min(requestedQuantity, 5000)`, it yields pairwise-distinct
masks, all below `spaceSize`, and exactly `min(wantCount, spaceSize)` of
them (in sampling mode completion additionally requires enough
randomness, which the explicit stream models). -/
theorem generatePicks_valid (q max : Nat) (rands picks : List Nat)
    (h : generatePicks max (Nat.min q 5000) rands = some picks) :
    picks.Nodup ∧ (∀ m ∈ picks, m < max) ∧
      picks.length = Nat.min (Nat.min q 5000) max := by
  unfold generatePicks at h
  split at h <;> rename_i hc
  · cases h
    refine ⟨List.nodup_range _, fun m hm => ?_, ?_⟩
    · exact lt_of_lt_of_le (List.mem_range.1 hm) (Nat.min_le_left _ _)
    · rw [List.length_range]
      exact Nat.min_comm _ _
  · have hm : 0 < max := by omega
    have hle : Nat.min q 5000 ≤ max :=
      le_trans (Nat.min_le_right q 5000) (by omega)
    unfold sampleUniqueBigInt at h
    obtain ⟨h1, h2, h3⟩ := sampleGo_spec hm rands [] picks List.nodup_nil (by simp) (by simp) h
    refine ⟨h1, h2, ?_⟩
    rw [h3]
    exact (Nat.min_eq_left hle).symm

theorem generatePicks_valid_witness :
    ([0, 1, 2] : List Nat).Nodup ∧ (∀ m ∈ ([0, 1, 2] : List Nat), m < 4) ∧
      ([0, 1, 2] : List Nat).length = Nat.min (Nat.min 3 5000) 4 :=
  generatePicks_valid 3 4 [] [0, 1, 2] (by decide)

/-- Decidable frame statement: `v` has the same length as `source` and
agrees with it at every index outside `pos`. -/
def sameOutside (source v : List Char) (pos : List Nat) : Bool :=
  (v.length == source.length) &&
  (List.range source.length).all (fun j =>
    decide (j ∈ pos) || (v.getD j ' ' == source.getD j ' '))

/-- C6 counterexample: custom index `0` on source `"ß@b.c"` — which
passes the e-mail gate, and the index filter has no letter check —
renders mask 1 by splicing `'ß'.toUpperCase() = "SS"` into the array,
so the joined variation `"SS@b.c"` is longer than the source and
differs from it at index 1, which is not an active position. -/
theorem generate_eszett_lengthens :
    generate "ß@b.c".toList (.num 2) true [.num 0] [] =
        .ok ["ß@b.c".toList, "SS@b.c".toList] ∧
      ("SS@b.c".toList).length ≠ ("ß@b.c".toList).length ∧
      sameOutside "ß@b.c".toList "SS@b.c".toList
        (activePositions true [.num 0] "ß@b.c".toList) = false := by
  refine ⟨by decide, by decide, by decide⟩

/-- C6 (amended): every variation produced by a successful run has the
source's length and differs from it only at active positions, provided
every character at an active position is Basic Latin — always the case
for the default letter extraction; a custom index may instead select a
character with a multi-character uppercase mapping such as `'ß'`, and
the variation then grows and its tail shifts, as the counterexample
shows. -/
theorem generate_frame_ascii (email : List Char) (qty : JSNum) (u : Bool) (t : List JSNum)
    (rands : List Nat) (vs : List (List Char)) (v : List Char)
    (h : generate email qty u t rands = .ok vs) (hv : v ∈ vs)
    (hascii : ∀ i ∈ activePositions u t email, (email.getD i ' ').toNat < 128) :
    sameOutside email v (activePositions u t email) = true := by
  obtain ⟨want, picks, _, hp, rfl⟩ := generate_ok_elim h
  rw [List.mem_map] at hv
  obtain ⟨m, hm, rfl⟩ := hv
  rw [flipCases_eq_char email _ m (activePositions_lt u t email) hascii]
  unfold sameOutside
  rw [Bool.and_eq_true]
  constructor
  · rw [beq_iff_eq]
    exact flipCasesChar_length email _ m
  · rw [List.all_eq_true]
    intro j hj
    rw [Bool.or_eq_true]
    by_cases hjmem : j ∈ activePositions u t email
    · exact Or.inl (decide_eq_true hjmem)
    · refine Or.inr ?_
      rw [beq_iff_eq]
      exact flipCasesChar_getD_of_not_mem email _ m j hjmem

theorem generate_frame_ascii_witness :
    generate "a@b.c".toList (.num 2) false [] [] =
        .ok ["a@b.c".toList, "A@b.c".toList] ∧
      "A@b.c".toList ∈ ["a@b.c".toList, "A@b.c".toList] ∧
      sameOutside "a@b.c".toList "A@b.c".toList
        (activePositions false [] "a@b.c".toList) = true :=
  ⟨by decide, by decide,
    generate_frame_ascii "a@b.c".toList (.num 2) false [] []
      ["a@b.c".toList, "A@b.c".toList] "A@b.c".toList (by decide) (by decide) (by decide)⟩

lemma totalPossible_two_pow (n : Nat) : totalPossible n = 2 ^ n := by
  unfold totalPossible
  rw [Nat.shiftLeft_eq, Nat.one_mul]

lemma totalPossible_pos (n : Nat) : 0 < totalPossible n := by
  rw [totalPossible_two_pow]
  exact Nat.two_pow_pos n

lemma generatePicks_nodup_lt {max want : Nat} {rands picks : List Nat}
    (hmax : 0 < max) (h : generatePicks max want rands = some picks) :
    picks.Nodup ∧ ∀ m ∈ picks, m < max := by
  unfold generatePicks at h
  split at h
  · cases h
    exact ⟨List.nodup_range _,
      fun m hm => lt_of_lt_of_le (List.mem_range.1 hm) (Nat.min_le_left _ _)⟩
  · unfold sampleUniqueBigInt at h
    obtain ⟨h1, h2, _⟩ := sampleGo_spec hmax rands [] picks List.nodup_nil (by simp) (by simp) h
    exact ⟨h1, h2⟩

/-- C5 counterexample: custom positions `0 0` (a repeated index) on the
source `"a@b.c"` with quantity 4: the clamped want count 4 does not
exceed the space size `2^2 = 4`, yet the four enumerated masks render to
a list with duplicates, because masks `1` and `2` both toggle only
position 0. -/
theorem generate_custom_dup_variations :
    Nat.min 4 5000 ≤ totalPossible (activePositions true [.num 0, .num 0] "a@b.c".toList).length ∧
    generate "a@b.c".toList (.num 4) true [.num 0, .num 0] [] =
        .ok ["a@b.c".toList, "A@b.c".toList, "A@b.c".toList, "a@b.c".toList] ∧
      ¬ (["a@b.c".toList, "A@b.c".toList, "A@b.c".toList, "a@b.c".toList] :
          List (List Char)).Nodup := by
  refine ⟨by decide, by decide, by decide⟩

/-- C5 (amended): all variations returned by one successful call are
pairwise distinct provided the active positions are pairwise distinct
indices of ASCII letters of the source — which always holds for the
default letter extraction; a user-supplied custom list that repeats an
index (or selects a non-letter) can produce duplicates, as the
counterexample shows. -/
theorem generate_variations_nodup (email : List Char) (qty : JSNum) (u : Bool)
    (t : List JSNum) (rands : List Nat) (vs : List (List Char))
    (h : generate email qty u t rands = .ok vs)
    (hnd : (activePositions u t email).Nodup)
    (hlet : ∀ i ∈ activePositions u t email,
      i < email.length ∧ isAsciiLetter (email.getD i ' ') = true) :
    vs.Nodup := by
  obtain ⟨want, picks, _, hp, rfl⟩ := generate_ok_elim h
  obtain ⟨hnd', hbound⟩ :=
    generatePicks_nodup_lt (totalPossible_pos (activePositions u t email).length) hp
  have hascii : ∀ i ∈ activePositions u t email, (email.getD i ' ').toNat < 128 := by
    intro i hi
    rcases isAsciiLetter_toNat (hlet i hi).2 with ⟨_, h2⟩ | ⟨_, h2⟩ <;> omega
  have hmap : (fun m => flipCases email (activePositions u t email) m) =
      fun m => flipCasesChar email (activePositions u t email) m :=
    funext (fun m => flipCases_eq_char email _ m (fun i hi => (hlet i hi).1) hascii)
  rw [hmap]
  refine List.Nodup.map_on ?_ hnd'
  intro x hx y hy hxy
  refine flipCasesChar_inj email _ hnd hlet ?_ ?_ hxy
  · rw [← totalPossible_two_pow]
    exact hbound x hx
  · rw [← totalPossible_two_pow]
    exact hbound y hy

theorem generate_variations_nodup_witness :
    (["a@b.c".toList, "A@b.c".toList] : List (List Char)).Nodup :=
  generate_variations_nodup "a@b.c".toList (.num 2) false [] []
    ["a@b.c".toList, "A@b.c".toList] (by decide) (by decide) (by decide)

/-- C7 counterexample: quantity `5000.5` is finite and positive but not
an integer, so the claim demands a validation rejection with no
variations; instead the guard `!Number.isFinite(n) || n <= 0` passes it,
`Math.min(5000.5, 5000) = 5000` makes the `BigInt` conversion succeed,
and a full variation list is generated. -/
theorem generate_accepts_noninteger_quantity :
    bigIntOfJS (.num (mkRat 10001 2)) = none ∧
      jsIsFinite (.num (mkRat 10001 2)) = true ∧
      jsLeZero (.num (mkRat 10001 2)) = false ∧
      generate "a@b.c".toList (.num (mkRat 10001 2)) false [] [] =
        .ok ((List.range 8).map (fun m => flipCases "a@b.c".toList [0, 2, 4] m)) := by
  refine ⟨by decide, by decide, by decide, by decide⟩

/-- C7 (amended): `generate` raises the quantity validation error for
exactly the non-finite or non-positive quantities; a positive finite
non-integer is not caught by the validation — it either trips a
`RangeError` at the `BigInt` conversion (when still non-integral after
the clamp) or generates normally (e.g. `5000.5`), though in no case are
partial results produced. -/
theorem generate_quantityError_iff (email : List Char) (qty : JSNum) (u : Bool)
    (t : List JSNum) (rands : List Nat) (hE : emailMatches email = true) :
    generate email qty u t rands = .quantityError ↔
      (jsIsFinite qty = false ∨ jsLeZero qty = true) := by
  unfold generate
  rw [hE]
  simp only [Bool.not_true, Bool.false_eq_true, if_false]
  cases hq : (!(jsIsFinite qty) || jsLeZero qty) with
  | true =>
    rw [if_pos rfl]
    simp only [true_iff]
    rcases Bool.or_eq_true_iff.1 hq with h | h
    · exact Or.inl (Bool.not_eq_true' .. |>.mp h)
    · exact Or.inr h
  | false =>
    rw [if_neg (by simp)]
    obtain ⟨h1, h2⟩ := Bool.or_eq_false_iff.1 hq
    refine iff_of_false ?_ ?_
    · split
      · simp
      · split <;> simp
    · rintro (h | h)
      · rw [h] at h1
        simp at h1
      · rw [h] at h2
        cases h2

theorem generate_quantityError_iff_witness :
    emailMatches "a@b.c".toList = true ∧
      (generate "a@b.c".toList .nan false [] [] = .quantityError ↔
        (jsIsFinite .nan = false ∨ jsLeZero .nan = true)) :=
  ⟨by decide, generate_quantityError_iff "a@b.c".toList .nan false [] [] (by decide)⟩

lemma jsMin_natCast (q : Nat) :
    jsMin (.num (q : Rat)) (.num 5000) = .num ((Nat.min q 5000 : Nat) : Rat) := by
  show (if (q : Rat) < 5000 then JSNum.num (q : Rat) else JSNum.num 5000) = _
  by_cases hlt : (q : Rat) < 5000
  · rw [if_pos hlt]
    have hq : q ≤ 5000 := by
      have h1 : q < 5000 := by exact_mod_cast hlt
      omega
    show JSNum.num (q : Rat) = JSNum.num (((if q ≤ 5000 then q else 5000) : Nat) : Rat)
    rw [if_pos hq]
  · rw [if_neg hlt]
    have h5 : 5000 ≤ q := by
      have h1 := not_lt.1 hlt
      exact_mod_cast h1
    show JSNum.num 5000 = JSNum.num (((if q ≤ 5000 then q else 5000) : Nat) : Rat)
    rcases Nat.eq_or_lt_of_le h5 with rfl | h5'
    · rw [if_pos (le_refl _)]
      norm_num
    · rw [if_neg (by omega)]
      norm_num

lemma bigIntOfJS_natCast (m : Nat) : bigIntOfJS (.num (m : Rat)) = some (m : Int) := by
  show (if ((m : Rat)).den = 1 then some ((m : Rat)).num else none) = some (m : Int)
  rw [if_pos (Rat.den_natCast m), Rat.num_natCast]

/-- Reduction of `generate` on a positive integral quantity `q`: the
validation passes and the run produces the picks for the clamped want
count `min q 5000`. -/
lemma generate_natQty (email : List Char) (q : Nat) (hq : 1 ≤ q) (u : Bool)
    (t : List JSNum) (rands : List Nat) (hE : emailMatches email = true) :
    generate email (.num (q : Rat)) u t rands =
      match generatePicks (totalPossible (activePositions u t email).length)
          (Nat.min q 5000) rands with
      | none => .outOfRandomness
      | some picks =>
        .ok (picks.map (fun m => flipCases email (activePositions u t email) m)) := by
  unfold generate
  rw [hE]
  have hpos : jsLeZero (.num (q : Rat)) = false := by
    show decide ((q : Rat) ≤ 0) = false
    rw [decide_eq_false_iff_not]
    rw [not_le]
    exact_mod_cast hq
  rw [hpos]
  simp only [Bool.not_true, Bool.false_eq_true, if_false, jsIsFinite, Bool.or_false,
    Bool.not_false, Bool.true_eq_false]
  rw [jsMin_natCast, bigIntOfJS_natCast]
  dsimp only
  rw [Int.toNat_ofNat]

/-- C8: whenever the space size is at most `100000`, a successful run on
an integral quantity `q` renders exactly the masks `0, 1, …, upto-1` in
increasing order, with `upto = min(spaceSize, min(q, 5000))`; and the run
with the smaller quantity is a prefix of the run with the larger
quantity on the same source and positions. -/
theorem generate_enumeration_monotone (email : List Char) (u : Bool) (t : List JSNum)
    (q1 q2 : Nat) (r1 r2 : List Nat) (vs1 vs2 : List (List Char))
    (hq1 : 1 ≤ q1) (hq12 : q1 ≤ q2)
    (hE : emailMatches email = true)
    (hsmall : totalPossible (activePositions u t email).length ≤ 100000)
    (h1 : generate email (.num (q1 : Rat)) u t r1 = .ok vs1)
    (h2 : generate email (.num (q2 : Rat)) u t r2 = .ok vs2) :
    vs1 = (List.range (Nat.min (totalPossible (activePositions u t email).length)
        (Nat.min q1 5000))).map (fun m => flipCases email (activePositions u t email) m) ∧
    vs2 = (List.range (Nat.min (totalPossible (activePositions u t email).length)
        (Nat.min q2 5000))).map (fun m => flipCases email (activePositions u t email) m) ∧
    vs2.take vs1.length = vs1 := by
  have hq2 : 1 ≤ q2 := le_trans hq1 hq12
  have hpick : ∀ (q : Nat) (r : List Nat),
      generatePicks (totalPossible (activePositions u t email).length) (Nat.min q 5000) r =
        some (List.range (Nat.min (totalPossible (activePositions u t email).length)
          (Nat.min q 5000))) := by
    intro q r
    unfold generatePicks
    rw [if_pos hsmall]
  have e1 := (generate_natQty email q1 hq1 u t r1 hE).symm.trans h1
  rw [hpick q1 r1] at e1
  have e2 := (generate_natQty email q2 hq2 u t r2 hE).symm.trans h2
  rw [hpick q2 r2] at e2
  dsimp only at e1 e2
  cases e1
  cases e2
  refine ⟨rfl, rfl, ?_⟩
  have hle : Nat.min (totalPossible (activePositions u t email).length) (Nat.min q1 5000) ≤
      Nat.min (totalPossible (activePositions u t email).length) (Nat.min q2 5000) :=
    le_min (min_le_left _ _)
      (le_trans (min_le_right _ _) (min_le_min hq12 (le_refl 5000)))
  rw [List.length_map, List.length_range, ← List.map_take, List.take_range]
  have hmin : min (Nat.min (totalPossible (activePositions u t email).length) (Nat.min q1 5000))
      (Nat.min (totalPossible (activePositions u t email).length) (Nat.min q2 5000)) =
      Nat.min (totalPossible (activePositions u t email).length) (Nat.min q1 5000) :=
    min_eq_left hle
  rw [hmin]

theorem generate_enumeration_monotone_witness :
    (["a@b.c".toList, "A@b.c".toList] : List (List Char)) =
      (List.range (Nat.min (totalPossible (activePositions false [] "a@b.c".toList).length)
        (Nat.min 2 5000))).map
          (fun m => flipCases "a@b.c".toList (activePositions false [] "a@b.c".toList) m) ∧
    (["a@b.c".toList, "A@b.c".toList, "a@B.c".toList] : List (List Char)) =
      (List.range (Nat.min (totalPossible (activePositions false [] "a@b.c".toList).length)
        (Nat.min 3 5000))).map
          (fun m => flipCases "a@b.c".toList (activePositions false [] "a@b.c".toList) m) ∧
    (["a@b.c".toList, "A@b.c".toList, "a@B.c".toList] : List (List Char)).take
      (["a@b.c".toList, "A@b.c".toList] : List (List Char)).length =
      (["a@b.c".toList, "A@b.c".toList] : List (List Char)) :=
  generate_enumeration_monotone "a@b.c".toList false [] 2 3 [] []
    ["a@b.c".toList, "A@b.c".toList] ["a@b.c".toList, "A@b.c".toList, "a@B.c".toList]
    (by decide) (by decide) (by decide) (by decide) (by decide) (by decide)

example : emailMatches ['a', '\n', 'b', '@', 'c', '.', 'd'] = true := by decide
example : emailMatches ['a', '@', 'b', '\n', 'c', '.', 'd'] = false := by decide
